import Mathlib

/-!
Verification development for the Tetris engine in `hello.py`.

The core game logic (board validity, line clearing, rotation, the
heuristic placement search and the game-loop state updates) is embedded
shallowly: Python lists become Lean lists, `None`-or-color cells become
`Option Nat` (the color tag abstracts the RGB tuple, which is purely
presentational), Python ints become `Int`/`Nat`, and the float heuristic
weights become exact rationals `ℚ`.  Loops with early exit are written as
folds / `all` over the same index ranges the source iterates.
-/

namespace Tetris

/-- `COLS = 10`, the board width from the source. -/
def COLS : Nat := 10

/-- `ROWS = 20`, the board height from the source. -/
def ROWS : Nat := 20

/-- A 4×4 shape mask: `True` stands for the `'#'` character of the source's
string rows, `False` for `'.'`. -/
abbrev Mask := List (List Bool)

/-- A board row: one `Option Nat` cell per column (`none` = empty,
`some c` = occupied by color tag `c`). -/
abbrev Row := List (Option Nat)

/-- The board: `ROWS` rows of `COLS` cells. -/
abbrev Board := List Row

/-- The I-piece template from `SHAPES`. -/
def shapeI : Mask :=
  [[false, false, false, false],
   [true,  true,  true,  true ],
   [false, false, false, false],
   [false, false, false, false]]

/-- The O-piece template from `SHAPES`. -/
def shapeO : Mask :=
  [[false, true,  true,  false],
   [false, true,  true,  false],
   [false, false, false, false],
   [false, false, false, false]]

/-- The T-piece template from `SHAPES`. -/
def shapeT : Mask :=
  [[false, true,  false, false],
   [true,  true,  true,  false],
   [false, false, false, false],
   [false, false, false, false]]

/-- The S-piece template from `SHAPES`. -/
def shapeS : Mask :=
  [[false, true,  true,  false],
   [true,  true,  false, false],
   [false, false, false, false],
   [false, false, false, false]]

/-- The Z-piece template from `SHAPES`. -/
def shapeZ : Mask :=
  [[true,  true,  false, false],
   [false, true,  true,  false],
   [false, false, false, false],
   [false, false, false, false]]

/-- The J-piece template from `SHAPES`. -/
def shapeJ : Mask :=
  [[true,  false, false, false],
   [true,  true,  true,  false],
   [false, false, false, false],
   [false, false, false, false]]

/-- The L-piece template from `SHAPES`. -/
def shapeL : Mask :=
  [[false, false, true,  false],
   [true,  true,  true,  false],
   [false, false, false, false],
   [false, false, false, false]]

/-- `SHAPES`: the seven tetromino templates, in source order. -/
def SHAPES : List Mask := [shapeI, shapeO, shapeT, shapeS, shapeZ, shapeJ, shapeL]

/-- `COLORS`: color identity tags, one per shape.  The source stores RGB
tuples; only their identity is ever used by the core, so each is
abstracted to its index. -/
def COLORS : List Nat := [0, 1, 2, 3, 4, 5, 6]

/-- `rotate(shape)`: `mask'[r][c] = mask[3-c][r]` — the clockwise quarter
turn of the source (`"".join(shape[3 - c][r] for c in range(4))` for each
new row `r`). -/
def rotate (shape : Mask) : Mask :=
  (List.range 4).map (fun r => (List.range 4).map (fun c =>
    ((shape.getD (3 - c) []).getD r false)))

/-- `shape_cells(shape, x, y)`: all `(x + c, y + r)` with a `'#'` at mask
position `[r][c]`, enumerated row-major as in the source's nested loops. -/
def shape_cells (shape : Mask) (x y : Int) : List (Int × Int) :=
  (List.range 4).flatMap (fun r => (List.range 4).flatMap (fun c =>
    if (shape.getD r []).getD c false then [(x + c, y + r)] else []))

/-- `board[y][x]` for `Int` coordinates; the source only indexes inside the
guards `0 ≤ x < COLS`, `0 ≤ y < ROWS`, where `getD` agrees with Python
indexing on a `ROWS × COLS` board. -/
def cellAt (board : Board) (x y : Int) : Option Nat :=
  (board.getD y.toNat []).getD x.toNat none

/-- `board[row][col]` for `Nat` coordinates (used by the metrics scan). -/
def cellAtN (board : Board) (col row : Nat) : Option Nat :=
  (board.getD row []).getD col none

/-- One cell's check inside `valid`: the source returns `False` when
`x < 0 or x >= COLS or y >= ROWS`, and also when `y >= 0` and the board
cell is occupied. -/
def validCell (board : Board) (p : Int × Int) : Bool :=
  if p.1 < 0 ∨ (COLS : Int) ≤ p.1 ∨ (ROWS : Int) ≤ p.2 then false
  else if 0 ≤ p.2 ∧ cellAt board p.1 p.2 ≠ none then false
  else true

/-- `valid(cells, board)`: the source's loop with early `return False` is
`List.all` of the per-cell check. -/
def valid (cells : List (Int × Int)) (board : Board) : Bool :=
  cells.all (validCell board)

/-- A fully empty board row (`[None] * COLS`). -/
def emptyRow : Row := List.replicate COLS none

/-- `clear_lines(board)`: keep the rows having at least one empty cell,
count the removed ones, and prepend that many empty rows (the source's
repeated `insert(0, ...)`). -/
def clear_lines (board : Board) : Board × Nat :=
  let new_board := board.filter (fun row => row.any (fun cell => cell.isNone))
  let cleared := ROWS - new_board.length
  (List.replicate cleared emptyRow ++ new_board, cleared)

/-- `unique_rotations(shape)`: four iterations of
`if current not in rotations: rotations.append(current); current = rotate(current)`. -/
def unique_rotations (shape : Mask) : List Mask :=
  let step := fun (acc : List Mask × Mask) (_ : Nat) =>
    let rotations := acc.1
    let current := acc.2
    ((if rotations.contains current then rotations else rotations ++ [current]),
     rotate current)
  ((List.range 4).foldl step ([], shape)).1

/-- The `while valid(shape_cells(shape, x, y + 1), board): y += 1` loop of
`drop_y` (and of `hard_drop`), with explicit fuel.  For any mask holding at
least one cell the source loop exits after at most `ROWS` steps (a valid
cell row is `< ROWS`), so fuel `ROWS + 4` makes the embedding agree with
the source on every call it performs. -/
def drop_y_fuel (board : Board) (shape : Mask) (x : Int) : Nat → Int → Int
  | 0, y => y
  | fuel + 1, y =>
    if valid (shape_cells shape x (y + 1)) board then
      drop_y_fuel board shape x fuel (y + 1)
    else y

/-- `drop_y(board, shape, x, y)`. -/
def drop_y (board : Board) (shape : Mask) (x y : Int) : Int :=
  drop_y_fuel board shape x (ROWS + 4) y

/-- `place_on_board(board, shape, x, y, color)` writes `color` into the
cell `(cy, cx)`; `List.set` is in-range exactly where the Python indexing
is. -/
def setCell (board : Board) (x y : Int) (color : Nat) : Board :=
  board.set y.toNat ((board.getD y.toNat []).set x.toNat (some color))

/-- `place_on_board`: copy the board and write every cell with `cy >= 0`
(cells above the board are silently dropped). -/
def place_on_board (board : Board) (shape : Mask) (x y : Int) (color : Nat) : Board :=
  (shape_cells shape x y).foldl
    (fun b p => if 0 ≤ p.2 then setCell b p.1 p.2 color else b) board

/-- One iteration of the `for row in range(ROWS)` scan of `board_metrics`
for a fixed column: state = (`block_seen`, `heights[col]`, running hole
count for this column). -/
def colScanStep (board : Board) (col : Nat) (st : Bool × Nat × Nat) (row : Nat) :
    Bool × Nat × Nat :=
  if (cellAtN board col row).isSome then
    if st.1 then st else (true, ROWS - row, st.2.2)
  else if st.1 then (st.1, st.2.1, st.2.2 + 1)
  else st

/-- The full per-column scan of `board_metrics`: returns
(`heights[col]`, holes contributed by this column). -/
def colScan (board : Board) (col : Nat) : Nat × Nat :=
  let st := (List.range ROWS).foldl (colScanStep board col) (false, 0, 0)
  (st.2.1, st.2.2)

/-- `board_metrics(board) -> (aggregate_height, holes, bumpiness,
max_height)`.  The source's single loop over columns fills `heights` and
accumulates `holes`; each column's contribution is independent, so it is
the column-wise map of `colScan`. -/
def board_metrics (board : Board) : Nat × Nat × Nat × Nat :=
  let scans := (List.range COLS).map (colScan board)
  let heights := scans.map Prod.fst
  let holes := (scans.map Prod.snd).sum
  let aggregate_height := heights.sum
  let bumpiness := ((List.range (COLS - 1)).map (fun i =>
    ((heights.getD i 0 : Int) - (heights.getD (i + 1) 0 : Int)).natAbs)).sum
  let max_height := heights.foldl max 0
  (aggregate_height, holes, bumpiness, max_height)

/-- The `WEIGHTS` table, as exact rationals (`1.0`, `-0.35`, `-0.7`,
`-0.18`, `-0.25`). -/
def W_lines : ℚ := 1
def W_aggregate_height : ℚ := -(35 / 100)
def W_holes : ℚ := -(7 / 10)
def W_bumpiness : ℚ := -(18 / 100)
def W_max_height : ℚ := -(25 / 100)

/-- The `terms` dict built by `evaluate_board`. -/
structure Terms where
  lines : ℚ
  aggregate_height : ℚ
  holes : ℚ
  bumpiness : ℚ
  max_height : ℚ
deriving DecidableEq

/-- The dict returned by `evaluate_board`. -/
structure Metrics where
  score : ℚ
  reward : Nat
  penalty : Nat
  aggregate_height : Nat
  holes : Nat
  bumpiness : Nat
  max_height : Nat
  terms : Terms
deriving DecidableEq

/-- `evaluate_board(board, lines_cleared)`: weighted-sum score (the float
arithmetic of the source is modelled exactly over `ℚ`), display-only
reward/penalty, and the raw metrics. -/
def evaluate_board (board : Board) (lines_cleared : Nat) : Metrics :=
  let m := board_metrics board
  let aggregate_height := m.1
  let holes := m.2.1
  let bumpiness := m.2.2.1
  let max_height := m.2.2.2
  let terms : Terms :=
    { lines := W_lines * lines_cleared
      aggregate_height := W_aggregate_height * aggregate_height
      holes := W_holes * holes
      bumpiness := W_bumpiness * bumpiness
      max_height := W_max_height * max_height }
  { score := terms.lines + terms.aggregate_height + terms.holes +
      terms.bumpiness + terms.max_height
    reward := lines_cleared * 100
    penalty := aggregate_height + holes * 5 + bumpiness * 2 + max_height * 3
    aggregate_height := aggregate_height
    holes := holes
    bumpiness := bumpiness
    max_height := max_height
    terms := terms }

/-- The `best` dict tracked by `best_move`. -/
structure Placement where
  x : Int
  y : Int
  rotIndex : Nat
  shape : Mask
  cells : List (Int × Int)
  metrics : Metrics
deriving DecidableEq

/-- The body of `best_move`'s double loop for one `(rot_index, rot, x)`:
`none` on either `continue`, otherwise the candidate dict. -/
def candidate (board : Board) (color : Nat) (rotIndex : Nat) (rot : Mask)
    (x : Int) : Option Placement :=
  if valid (shape_cells rot x 0) board then
    let y := drop_y board rot x 0
    let cells := shape_cells rot x y
    if valid cells board then
      let placed := place_on_board board rot x y color
      let cb := clear_lines placed
      some { x := x, y := y, rotIndex := rotIndex, shape := rot, cells := cells,
             metrics := evaluate_board cb.1 cb.2 }
    else none
  else none

/-- The candidates `best_move` inspects, in its enumeration order:
rotation-major (`enumerate(rotations)`), then `x in range(-2, COLS)`
ascending; invalid `(rotation, x)` pairs are skipped (`continue`). -/
def candidates (board : Board) (shape : Mask) (color : Nat) : List Placement :=
  ((unique_rotations shape).enum).flatMap (fun ri =>
    (List.range (COLS + 2)).filterMap (fun i =>
      candidate board color ri.1 ri.2 ((i : Int) - 2)))

/-- The update `if best is None or metrics["score"] > best["metrics"]["score"]`. -/
def bestStep (best : Option Placement) (cand : Placement) : Option Placement :=
  match best with
  | none => some cand
  | some b => if b.metrics.score < cand.metrics.score then some cand else some b

/-- `best_move(board, shape, color)`: fold the update over the candidate
stream. -/
def best_move (board : Board) (shape : Mask) (color : Nat) : Option Placement :=
  (candidates board shape color).foldl bestStep none

/-! ## Game loop state

The mutable loop-local variables of `main` that carry game semantics:
`board`, `shape`, `x`, `y`, `color`, `score`, `drop_interval`,
`game_over`, `ai_enabled`.  Presentation-only state (timers, key-flash
animation, the history chart, the pending-action queue pacing) is outside
the modelled core, as is the window plumbing. -/

structure GameState where
  board : Board
  shape : Mask
  x : Int
  y : Int
  color : Nat
  score : Nat
  drop_interval : Nat
  game_over : Bool
  ai_enabled : Bool
deriving DecidableEq

/-- The discrete input intents delivered by the key handler:
left / right / down (soft drop) / up (rotate) / space (hard drop) /
`A` (toggle autoplay). -/
inductive Intent where
  | left
  | right
  | down
  | up
  | drop
  | toggle
deriving DecidableEq

/-- The autoplayer's queued actions (`"left"`, `"right"`, `"rot"`,
`"drop"`). -/
inductive AIAction where
  | left
  | right
  | rot
  | drop
deriving DecidableEq

/-- `move_left()`: step `x` left when the shifted cells are valid. -/
def move_left (s : GameState) : GameState :=
  if valid (shape_cells s.shape (s.x - 1) s.y) s.board then
    { s with x := s.x - 1 }
  else s

/-- `move_right()`. -/
def move_right (s : GameState) : GameState :=
  if valid (shape_cells s.shape (s.x + 1) s.y) s.board then
    { s with x := s.x + 1 }
  else s

/-- `move_down()`: the new state plus the function's boolean result. -/
def move_down (s : GameState) : GameState × Bool :=
  if valid (shape_cells s.shape s.x (s.y + 1)) s.board then
    ({ s with y := s.y + 1 }, true)
  else (s, false)

/-- `rotate_piece()`. -/
def rotate_piece (s : GameState) : GameState :=
  let r := rotate s.shape
  if valid (shape_cells r s.x s.y) s.board then { s with shape := r } else s

/-- `hard_drop()`: the same `while valid(...): y += 1` loop as `drop_y`
(the `drop_timer` it also sets is presentation pacing). -/
def hard_drop (s : GameState) : GameState :=
  { s with y := drop_y s.board s.shape s.x s.y }

/-- The spawn anchor column `COLS // 2 - 2`. -/
def spawnX : Int := (COLS : Int) / 2 - 2

/-- `spawn()` with the randomly drawn index passed in explicitly: install
the template shape and color at the fixed anchor `(spawnX, -2)` and report
whether the spawn cells are valid. -/
def spawn (nextIdx : Nat) (s : GameState) : GameState × Bool :=
  let shape := SHAPES.getD nextIdx []
  let s' := { s with
              shape := shape
              color := COLORS.getD nextIdx 0
              x := spawnX
              y := -2 }
  (s', valid (shape_cells shape spawnX (-2)) s'.board)

/-- The key handler (`pygame.KEYDOWN` branch of `main`): toggling autoplay
requires `not game_over`; the movement keys require only
`not ai_enabled`. -/
def handleKey (i : Intent) (s : GameState) : GameState :=
  match i with
  | .toggle => if ¬ s.game_over then { s with ai_enabled := ¬ s.ai_enabled } else s
  | .left => if ¬ s.ai_enabled then move_left s else s
  | .right => if ¬ s.ai_enabled then move_right s else s
  | .down => if ¬ s.ai_enabled then (move_down s).1 else s
  | .up => if ¬ s.ai_enabled then rotate_piece s else s
  | .drop => if ¬ s.ai_enabled then hard_drop s else s

/-- Executing one queued autoplayer action
(`if ai_enabled and ai_queue and ... and not game_over`). -/
def aiStep (a : AIAction) (s : GameState) : GameState :=
  if s.ai_enabled ∧ ¬ s.game_over then
    match a with
    | .left => move_left s
    | .right => move_right s
    | .rot => rotate_piece s
    | .drop => hard_drop s
  else s

/-- The per-frame `if game_over: ai_queue = []; ai_enabled = False`. -/
def enforceGameOver (s : GameState) : GameState :=
  if s.game_over then { s with ai_enabled := false } else s

/-- The number of lines a lock at the current position would clear. -/
def lockCleared (s : GameState) : Nat :=
  (clear_lines (place_on_board s.board s.shape s.x s.y s.color)).2

/-- The lock branch of the fall tick: write the piece's cells with
`cy >= 0` onto the board (the inline loop of `main` is exactly
`place_on_board`), clear full rows, add `cleared² * 100` to the score and
shrink `drop_interval` when `cleared` is nonzero, then spawn; a failed
spawn sets `game_over`. -/
def lockStep (nextIdx : Nat) (s : GameState) : GameState :=
  let cb := clear_lines (place_on_board s.board s.shape s.x s.y s.color)
  let cleared := cb.2
  let score' := if cleared ≠ 0 then s.score + (cleared * cleared) * 100 else s.score
  let di' := if cleared ≠ 0 then max 120 (s.drop_interval - cleared * 20)
             else s.drop_interval
  let sp := spawn nextIdx
    { s with board := cb.1, score := score', drop_interval := di' }
  if sp.2 then sp.1 else { sp.1 with game_over := true }

/-- The fall tick (`if drop_timer >= drop_interval and not game_over`):
move down if possible, otherwise lock/clear/spawn. -/
def tickStep (nextIdx : Nat) (s : GameState) : GameState :=
  if s.game_over then s
  else
    let md := move_down s
    if md.2 then md.1 else lockStep nextIdx s

/-- The empty starting board. -/
def emptyBoard : Board := List.replicate ROWS emptyRow

/-- The loop state right after initialisation and the first `spawn()`
(`score = 0`, `drop_interval = 700`, autoplay on), for a first drawn piece
index. -/
def initState (idx : Nat) : GameState :=
  (spawn idx
    { board := emptyBoard, shape := [], x := 0, y := 0, color := 0,
      score := 0, drop_interval := 700, game_over := false,
      ai_enabled := true }).1

/-- One observable state change of the loop: a key intent, a queued
autoplayer action, the per-frame game-over enforcement, or a fall tick
with the next randomly drawn piece index. -/
inductive Step : GameState → GameState → Prop where
  | key (i : Intent) (s : GameState) : Step s (handleKey i s)
  | ai (a : AIAction) (s : GameState) : Step s (aiStep a s)
  | enforce (s : GameState) : Step s (enforceGameOver s)
  | tick (nextIdx : Nat) (s : GameState) (h : nextIdx < SHAPES.length) :
      Step s (tickStep nextIdx s)

/-- A state the loop can reach from some initial spawn. -/
def Reachable (s : GameState) : Prop :=
  ∃ idx, idx < SHAPES.length ∧ Relation.ReflTransGen Step (initState idx) s

/-! ## Spec-side definitions (for refinement comparisons)

These follow the spec's words, to be compared with the definitions taken
from the source. -/

/-- A row is full iff it contains zero empty cells (spec §4.1). -/
def isFullRow (row : Row) : Bool := !(row.any (fun cell => cell.isNone))

/-- The row index of the topmost occupied cell of a column, if any
(spec §4.1, `metrics`). -/
def topRowSpec (board : Board) (col : Nat) : Option Nat :=
  (List.range ROWS).find? (fun row => (cellAtN board col row).isSome)

/-- Spec-side per-column height: `H - r` for topmost occupied row `r`,
`0` for a column with no occupied cell. -/
def heightSpec (board : Board) (col : Nat) : Nat :=
  match topRowSpec board col with
  | none => 0
  | some r => ROWS - r

/-- Spec-side per-column holes: empty cells lying below the topmost
occupied cell of the column; a column with no occupied cell contributes
none. -/
def holesSpec (board : Board) (col : Nat) : Nat :=
  match topRowSpec board col with
  | none => 0
  | some r =>
    ((List.range ROWS).filter
      (fun row => decide (r < row) && (cellAtN board col row).isNone)).length

/-! ## Helper lemmas -/

lemma validCell_true_iff (board : Board) (p : Int × Int) :
    validCell board p = true ↔
      0 ≤ p.1 ∧ p.1 < (COLS : Int) ∧ p.2 < (ROWS : Int) ∧
        (p.2 < 0 ∨ cellAt board p.1 p.2 = none) := by
  unfold validCell
  split_ifs with h1 h2
  · simp only [false_iff]
    rintro ⟨ha, hb, hc, -⟩
    rcases h1 with h | h | h <;> omega
  · simp only [false_iff]
    rintro ⟨-, -, -, hd⟩
    rcases hd with h | h
    · omega
    · exact h2.2 h
  · push_neg at h1
    constructor
    · intro _
      refine ⟨h1.1, h1.2.1, h1.2.2, ?_⟩
      by_cases hy : p.2 < 0
      · exact Or.inl hy
      · refine Or.inr ?_
        by_contra hne
        exact h2 ⟨by omega, hne⟩
    · intro _
      rfl

lemma valid_true_iff (board : Board) (cells : List (Int × Int)) :
    valid cells board = true ↔
      ∀ p ∈ cells, 0 ≤ p.1 ∧ p.1 < (COLS : Int) ∧ p.2 < (ROWS : Int) ∧
        (p.2 < 0 ∨ cellAt board p.1 p.2 = none) := by
  unfold valid
  rw [List.all_eq_true]
  constructor
  · intro h p hp
    exact (validCell_true_iff board p).mp (h p hp)
  · intro h p hp
    exact (validCell_true_iff board p).mpr (h p hp)

lemma length_filter_partition {α : Type _} (l : List α) (p : α → Bool) :
    (l.filter p).length + (l.filter (fun x => !(p x))).length = l.length := by
  induction l with
  | nil => rfl
  | cons a l ih =>
    by_cases h : p a = true <;> simp [List.filter_cons, h] <;> omega

lemma exists_four {α : Type _} (l : List α) (h : l.length = 4) :
    ∃ a b c d, l = [a, b, c, d] := by
  match l with
  | [] => simp at h
  | [a] => simp at h
  | [a, b] => simp at h
  | [a, b, c] => simp at h
  | [a, b, c, d] => exact ⟨a, b, c, d, rfl⟩
  | a :: b :: c :: d :: e :: t => simp [List.length_cons] at h

/-! ## Claims C1–C4 -/

/-- C1: on a `ROWS × COLS` board, `valid` accepts a cell list iff every
`(x, y)` has `0 ≤ x < COLS`, `y < ROWS`, and `y < 0` or the targeted cell
empty; any out-of-range column or row `≥ ROWS` forces rejection, and
cells with negative `y` are never checked for occupancy (the occupancy
disjunct is guarded by `y < 0`). -/
theorem valid_spec (board : Board) (cells : List (Int × Int))
    (_hlen : board.length = ROWS) (_hw : ∀ row ∈ board, row.length = COLS) :
    (valid cells board = true ↔
      ∀ p ∈ cells, 0 ≤ p.1 ∧ p.1 < (COLS : Int) ∧ p.2 < (ROWS : Int) ∧
        (p.2 < 0 ∨ cellAt board p.1 p.2 = none)) ∧
    (∀ p ∈ cells, (p.1 < 0 ∨ (COLS : Int) ≤ p.1 ∨ (ROWS : Int) ≤ p.2) →
      valid cells board = false) := by
  refine ⟨valid_true_iff board cells, ?_⟩
  intro p hp hbad
  rw [← Bool.not_eq_true, valid_true_iff]
  intro hall
  obtain ⟨ha, hb, hc, -⟩ := hall p hp
  rcases hbad with h | h | h <;> omega

/-- Witness for C1 at a concrete board and cell list. -/
theorem valid_spec_witness :
    (valid [((3 : Int), (19 : Int))] emptyBoard = true ↔
      ∀ p ∈ [((3 : Int), (19 : Int))],
        0 ≤ p.1 ∧ p.1 < (COLS : Int) ∧ p.2 < (ROWS : Int) ∧
          (p.2 < 0 ∨ cellAt emptyBoard p.1 p.2 = none)) ∧
    (∀ p ∈ [((3 : Int), (19 : Int))],
      (p.1 < 0 ∨ (COLS : Int) ≤ p.1 ∨ (ROWS : Int) ≤ p.2) →
        valid [((3 : Int), (19 : Int))] emptyBoard = false) :=
  valid_spec emptyBoard [(3, 19)] (by decide) (by decide)

/-- C2: rotating any 4×4 mask four times returns the original mask, where
one `rotate` sends position `[r][c]` to the original `[3-c][r]`. -/
theorem rotate_spec (shape : Mask) (h1 : shape.length = 4)
    (h2 : ∀ row ∈ shape, row.length = 4) :
    rotate (rotate (rotate (rotate shape))) = shape ∧
    ∀ r, r < 4 → ∀ c, c < 4 →
      ((rotate shape).getD r []).getD c false =
        (shape.getD (3 - c) []).getD r false := by
  obtain ⟨r0, r1, r2, r3, rfl⟩ := exists_four shape h1
  obtain ⟨a0, a1, a2, a3, rfl⟩ := exists_four r0 (h2 _ (by simp))
  obtain ⟨b0, b1, b2, b3, rfl⟩ := exists_four r1 (h2 _ (by simp))
  obtain ⟨c0, c1, c2, c3, rfl⟩ := exists_four r2 (h2 _ (by simp))
  obtain ⟨d0, d1, d2, d3, rfl⟩ := exists_four r3 (h2 _ (by simp))
  refine ⟨rfl, ?_⟩
  intro r hr c hc
  interval_cases r <;> interval_cases c <;> rfl

/-- Witness for C2 at the T-piece template. -/
theorem rotate_spec_witness :
    rotate (rotate (rotate (rotate shapeT))) = shapeT ∧
    ∀ r, r < 4 → ∀ c, c < 4 →
      ((rotate shapeT).getD r []).getD c false =
        (shapeT.getD (3 - c) []).getD r false :=
  rotate_spec shapeT (by decide) (by decide)

/-- C3 counterexample: the O-piece has four distinct rotation masks under
the source's box-centre rotation (the piece is not centred in its 4×4
bounding box, so each quarter turn produces a different mask), refuting
the claimed length 1; likewise the I-piece is not of length 2. -/
theorem unique_rotations_counterexample :
    ¬ ((unique_rotations shapeO).length = 1) ∧
    ¬ ((unique_rotations shapeI).length = 2) := by
  decide

/-- C3 amended: `unique_rotations` returns four distinct masks for every
one of the seven shape templates (the masks are compared as whole 4×4
grids, and no template is centred in its bounding box). -/
theorem unique_rotations_lengths :
    (unique_rotations shapeI).length = 4 ∧
    (unique_rotations shapeO).length = 4 ∧
    (unique_rotations shapeT).length = 4 ∧
    (unique_rotations shapeS).length = 4 ∧
    (unique_rotations shapeZ).length = 4 ∧
    (unique_rotations shapeJ).length = 4 ∧
    (unique_rotations shapeL).length = 4 := by
  decide

/-- C4: on an `H`-row board with exactly `k` full rows (full = zero empty
cells), `clear_lines` reports `k`, keeps height `H`, and returns `k`
fully-empty rows prepended to the non-full rows in their original order;
row widths are preserved. -/
theorem clear_lines_spec (board : Board) (k : Nat)
    (hlen : board.length = ROWS)
    (hk : (board.filter isFullRow).length = k) :
    (clear_lines board).2 = k ∧
    (clear_lines board).1.length = ROWS ∧
    (clear_lines board).1 =
      List.replicate k emptyRow ++ board.filter (fun row => !(isFullRow row)) ∧
    ((∀ row ∈ board, row.length = COLS) →
      ∀ row ∈ (clear_lines board).1, row.length = COLS) := by
  have hfilter : board.filter (fun row => row.any (fun cell => cell.isNone)) =
      board.filter (fun row => !(isFullRow row)) := by
    apply List.filter_congr
    intro row _
    simp [isFullRow]
  have hpart := length_filter_partition board isFullRow
  have hle := List.length_filter_le isFullRow board
  have hkept : (board.filter (fun row => row.any (fun cell => cell.isNone))).length =
      ROWS - k := by
    rw [hfilter]
    omega
  have hcleared : (clear_lines board).2 = k := by
    show ROWS - (board.filter (fun row => row.any (fun cell => cell.isNone))).length = k
    rw [hkept]
    omega
  refine ⟨hcleared, ?_, ?_, ?_⟩
  · show (List.replicate _ emptyRow ++ _).length = ROWS
    rw [List.length_append, List.length_replicate, hkept]
    omega
  · show List.replicate ((clear_lines board).2) emptyRow ++ _ = _
    rw [hcleared, hfilter]
  · intro hw row hrow
    rcases List.mem_append.mp hrow with h | h
    · rw [(List.mem_replicate.mp h).2]
      simp [emptyRow]
    · exact hw row (List.mem_filter.mp h).1

/-- Witness for C4: a board whose bottom row is full and whose other 19
rows are empty. -/
theorem clear_lines_spec_witness :
    (clear_lines (List.replicate 19 emptyRow ++ [List.replicate COLS (some 3)])).2 = 1 ∧
    (clear_lines (List.replicate 19 emptyRow ++ [List.replicate COLS (some 3)])).1.length = ROWS ∧
    (clear_lines (List.replicate 19 emptyRow ++ [List.replicate COLS (some 3)])).1 =
      List.replicate 1 emptyRow ++
        (List.replicate 19 emptyRow ++ [List.replicate COLS (some 3)]).filter
          (fun row => !(isFullRow row)) ∧
    ((∀ row ∈ List.replicate 19 emptyRow ++ [List.replicate COLS (some 3)],
        row.length = COLS) →
      ∀ row ∈ (clear_lines (List.replicate 19 emptyRow ++ [List.replicate COLS (some 3)])).1,
        row.length = COLS) :=
  clear_lines_spec (List.replicate 19 emptyRow ++ [List.replicate COLS (some 3)]) 1
    (by decide) (by decide)

lemma colScanFold (board : Board) (col : Nat) (n : Nat) :
    (List.range n).foldl (colScanStep board col) (false, 0, 0) =
      match (List.range n).find? (fun row => (cellAtN board col row).isSome) with
      | none => (false, 0, 0)
      | some r => (true, ROWS - r,
          ((List.range n).filter
            (fun row => decide (r < row) && (cellAtN board col row).isNone)).length) := by
  induction n with
  | zero => rfl
  | succ n ih =>
    rw [List.range_succ, List.foldl_append, List.find?_append, ih]
    cases hfind : (List.range n).find? (fun row => (cellAtN board col row).isSome) with
    | none =>
      cases hocc : (cellAtN board col n).isSome with
      | true =>
        have hempty : (List.range n).filter
            (fun row => decide (n < row) && (cellAtN board col row).isNone) = [] := by
          rw [List.filter_eq_nil_iff]
          intro a ha
          have ha' : a < n := List.mem_range.mp ha
          simp [Nat.not_lt_of_lt ha']
        simp [colScanStep, hocc, List.filter_append, hempty]
      | false =>
        simp [colScanStep, hocc]
    | some r =>
      have hrlt : r < n :=
        List.mem_range.mp (List.mem_of_find?_eq_some hfind)
      cases hocc : (cellAtN board col n).isSome with
      | true =>
        have hq : (decide (r < n) && (cellAtN board col n).isNone) = false := by
          cases h' : cellAtN board col n with
          | none => rw [h'] at hocc; simp at hocc
          | some v => simp
        simp [colScanStep, hocc, List.filter_append, hq]
      | false =>
        have hq : (decide (r < n) && (cellAtN board col n).isNone) = true := by
          have hn : (cellAtN board col n).isNone = true := by
            cases h' : cellAtN board col n with
            | none => rfl
            | some v => rw [h'] at hocc; simp at hocc
          simp [hn, hrlt]
        simp [colScanStep, hocc, List.filter_append, hq]

lemma colScan_eq (board : Board) (col : Nat) :
    colScan board col = (heightSpec board col, holesSpec board col) := by
  unfold colScan heightSpec holesSpec topRowSpec
  rw [colScanFold]
  cases hfind : (List.range ROWS).find? (fun row => (cellAtN board col row).isSome) with
  | none => simp
  | some r => simp

lemma foldl_max_le (l : List Nat) (a : Nat) :
    a ≤ l.foldl max a ∧ ∀ x ∈ l, x ≤ l.foldl max a := by
  induction l generalizing a with
  | nil => simp
  | cons b l ih =>
    have h := ih (max a b)
    refine ⟨le_trans (le_max_left a b) h.1, ?_⟩
    intro x hx
    rcases List.mem_cons.mp hx with rfl | hx
    · exact le_trans (le_max_right a x) h.1
    · exact h.2 x hx

lemma foldl_max_mem (l : List Nat) (a : Nat) :
    l.foldl max a = a ∨ l.foldl max a ∈ l := by
  induction l generalizing a with
  | nil => left; rfl
  | cons b l ih =>
    rw [List.foldl_cons]
    rcases ih (max a b) with h | h
    · rcases le_total a b with hab | hba
      · right
        rw [h, max_eq_right hab]
        exact List.mem_cons_self b l
      · left
        rw [h, max_eq_left hba]
    · right
      exact List.mem_cons_of_mem b h

lemma heights_eq (board : Board) :
    ((List.range COLS).map (colScan board)).map Prod.fst =
      (List.range COLS).map (fun c => heightSpec board c) := by
  rw [List.map_map]
  exact List.map_congr_left (fun c _ => by rw [Function.comp_apply, colScan_eq])

lemma bm_agg (board : Board) :
    (board_metrics board).1 =
      ((List.range COLS).map (fun c => heightSpec board c)).sum := by
  show (((List.range COLS).map (colScan board)).map Prod.fst).sum = _
  rw [heights_eq]

lemma bm_holes (board : Board) :
    (board_metrics board).2.1 =
      ((List.range COLS).map (fun c => holesSpec board c)).sum := by
  show (((List.range COLS).map (colScan board)).map Prod.snd).sum = _
  rw [List.map_map]
  exact congrArg List.sum
    (List.map_congr_left (fun c _ => by rw [Function.comp_apply, colScan_eq]))

lemma bm_max (board : Board) :
    (board_metrics board).2.2.2 =
      ((List.range COLS).map (fun c => heightSpec board c)).foldl max 0 := by
  show (((List.range COLS).map (colScan board)).map Prod.fst).foldl max 0 = _
  rw [heights_eq]

lemma bm_bump (board : Board) :
    (board_metrics board).2.2.1 =
      ((List.range (COLS - 1)).map (fun i =>
        ((heightSpec board i : Int) - (heightSpec board (i + 1) : Int)).natAbs)).sum := by
  have h0 : (board_metrics board).2.2.1 = ((List.range (COLS - 1)).map (fun i =>
      (((((List.range COLS).map (colScan board)).map Prod.fst).getD i 0 : Int) -
       ((((List.range COLS).map (colScan board)).map Prod.fst).getD (i + 1) 0 : Int)).natAbs)).sum := rfl
  have hgetD : ∀ i, i < COLS →
      (((List.range COLS).map (colScan board)).map Prod.fst).getD i 0 =
        heightSpec board i := by
    intro i hi
    rw [heights_eq, List.getD_eq_getElem?_getD, List.getElem?_map,
      List.getElem?_range hi]
    rfl
  rw [h0]
  exact congrArg List.sum (List.map_congr_left (fun i hi => by
    have hi' : i < COLS - 1 := List.mem_range.mp hi
    rw [hgetD i (by omega), hgetD (i + 1) (by omega)]))

/-- C5: `board_metrics` computes exactly the spec's metrics: aggregate =
sum of spec-side per-column heights, holes = sum of spec-side per-column
holes (columns with no occupied cell contribute none), bumpiness = sum of
|height i − height (i+1)| over adjacent columns, and max_height is the
maximum per-column height; the function is pure. -/
theorem board_metrics_spec (board : Board) :
    (board_metrics board).1 =
      ((List.range COLS).map (fun c => heightSpec board c)).sum ∧
    (board_metrics board).2.1 =
      ((List.range COLS).map (fun c => holesSpec board c)).sum ∧
    (board_metrics board).2.2.1 =
      ((List.range (COLS - 1)).map (fun i =>
        ((heightSpec board i : Int) - (heightSpec board (i + 1) : Int)).natAbs)).sum ∧
    (∀ c, c < COLS → heightSpec board c ≤ (board_metrics board).2.2.2) ∧
    ((board_metrics board).2.2.2 = 0 ∨
      ∃ c, c < COLS ∧ heightSpec board c = (board_metrics board).2.2.2) ∧
    board_metrics board = board_metrics board := by
  refine ⟨bm_agg board, bm_holes board, bm_bump board, ?_, ?_, rfl⟩
  · intro c hc
    rw [bm_max]
    exact (foldl_max_le _ 0).2 _ (List.mem_map.mpr ⟨c, List.mem_range.mpr hc, rfl⟩)
  · rw [bm_max]
    rcases foldl_max_mem ((List.range COLS).map (fun c => heightSpec board c)) 0 with h | h
    · exact Or.inl h
    · right
      obtain ⟨c, hc, hval⟩ := List.mem_map.mp h
      exact ⟨c, List.mem_range.mp hc, hval⟩

/-- Witness for C5's bounded conjunct at a concrete board and column. -/
theorem board_metrics_spec_witness :
    heightSpec emptyBoard 0 ≤ (board_metrics emptyBoard).2.2.2 :=
  (board_metrics_spec emptyBoard).2.2.2.1 0 (by decide)

lemma bestStep_some (a c : Placement) :
    bestStep (some a) c =
      if a.metrics.score < c.metrics.score then some c else some a := rfl

lemma bestStep_none (c : Placement) : bestStep none c = some c := rfl

lemma foldl_bestStep_ne_none (l : List Placement) (a : Placement) :
    l.foldl bestStep (some a) ≠ none := by
  induction l generalizing a with
  | nil => simp
  | cons c l ih =>
    rw [List.foldl_cons, bestStep_some]
    split
    · exact ih c
    · exact ih a

lemma foldl_bestStep_le (l : List Placement) (a b : Placement)
    (h : l.foldl bestStep (some a) = some b) :
    a.metrics.score ≤ b.metrics.score ∧
      ∀ c ∈ l, c.metrics.score ≤ b.metrics.score := by
  induction l generalizing a with
  | nil =>
    simp only [List.foldl_nil, Option.some.injEq] at h
    subst h
    exact ⟨le_refl _, by simp⟩
  | cons c l ih =>
    rw [List.foldl_cons, bestStep_some] at h
    split at h
    · rename_i hlt
      obtain ⟨h1, h2⟩ := ih c h
      refine ⟨le_trans (le_of_lt hlt) h1, ?_⟩
      intro d hd
      rcases List.mem_cons.mp hd with rfl | hd
      · exact h1
      · exact h2 d hd
    · rename_i hnlt
      obtain ⟨h1, h2⟩ := ih a h
      refine ⟨h1, ?_⟩
      intro d hd
      rcases List.mem_cons.mp hd with rfl | hd
      · exact le_trans (le_of_not_lt hnlt) h1
      · exact h2 d hd

lemma foldl_bestStep_first (l : List Placement) (a b : Placement)
    (h : l.foldl bestStep (some a) = some b) :
    (b = a ∧ ∀ c ∈ l, c.metrics.score ≤ a.metrics.score) ∨
    (∃ i, l[i]? = some b ∧ a.metrics.score < b.metrics.score ∧
      ∀ (j : Nat) (c : Placement), j < i → l[j]? = some c →
        c.metrics.score < b.metrics.score) := by
  induction l generalizing a with
  | nil =>
    simp only [List.foldl_nil, Option.some.injEq] at h
    exact Or.inl ⟨h.symm, by simp⟩
  | cons c l ih =>
    rw [List.foldl_cons, bestStep_some] at h
    split at h
    · rename_i hlt
      rcases ih c h with ⟨rfl, hall⟩ | ⟨i, hi, hcb, hprev⟩
      · right
        refine ⟨0, by simp, hlt, ?_⟩
        intro j d hj _
        omega
      · right
        refine ⟨i + 1, by simpa using hi, lt_trans hlt hcb, ?_⟩
        intro j d hj hd
        match j with
        | 0 =>
          simp only [List.getElem?_cons_zero, Option.some.injEq] at hd
          subst hd
          exact hcb
        | j' + 1 =>
          exact hprev j' d (by omega) (by simpa using hd)
    · rename_i hnlt
      rcases ih a h with ⟨rfl, hall⟩ | ⟨i, hi, hab, hprev⟩
      · left
        refine ⟨rfl, ?_⟩
        intro d hd
        rcases List.mem_cons.mp hd with rfl | hd
        · exact le_of_not_lt hnlt
        · exact hall d hd
      · right
        refine ⟨i + 1, by simpa using hi, hab, ?_⟩
        intro j d hj hd
        match j with
        | 0 =>
          simp only [List.getElem?_cons_zero, Option.some.injEq] at hd
          subst hd
          exact lt_of_le_of_lt (le_of_not_lt hnlt) hab
        | j' + 1 =>
          exact hprev j' d (by omega) (by simpa using hd)

lemma foldl_bestStep_mem (l : List Placement) (a b : Placement)
    (h : l.foldl bestStep (some a) = some b) : b = a ∨ b ∈ l := by
  induction l generalizing a with
  | nil =>
    simp only [List.foldl_nil, Option.some.injEq] at h
    exact Or.inl h.symm
  | cons c l ih =>
    rw [List.foldl_cons, bestStep_some] at h
    split at h
    · rcases ih c h with rfl | hb
      · exact Or.inr (List.mem_cons_self _ _)
      · exact Or.inr (List.mem_cons_of_mem _ hb)
    · rcases ih a h with rfl | hb
      · exact Or.inl rfl
      · exact Or.inr (List.mem_cons_of_mem _ hb)

lemma best_move_mem (board : Board) (shape : Mask) (color : Nat) (b : Placement)
    (h : best_move board shape color = some b) :
    b ∈ candidates board shape color := by
  unfold best_move at h
  cases hc : candidates board shape color with
  | nil => rw [hc] at h; simp at h
  | cons c l =>
    rw [hc, List.foldl_cons, bestStep_none] at h
    rcases foldl_bestStep_mem l c b h with rfl | hb
    · exact List.mem_cons_self _ _
    · exact List.mem_cons_of_mem _ hb

/-- C6: `best_move` returns `none` iff no (rotation, column) candidate
passes the validity checks; when it returns a placement, that placement is
one of the enumerated candidates, its score is maximal among them, and it
is the earliest-found candidate achieving that score in rotation-major,
ascending-column order (every strictly earlier candidate scores strictly
less). -/
theorem best_move_spec (board : Board) (shape : Mask) (color : Nat) :
    (best_move board shape color = none ↔ candidates board shape color = []) ∧
    (∀ b, best_move board shape color = some b →
      b ∈ candidates board shape color ∧
      (∀ c ∈ candidates board shape color,
        c.metrics.score ≤ b.metrics.score) ∧
      ∃ i, (candidates board shape color)[i]? = some b ∧
        ∀ (j : Nat) (c : Placement), j < i →
          (candidates board shape color)[j]? = some c →
            c.metrics.score < b.metrics.score) := by
  constructor
  · unfold best_move
    cases hc : candidates board shape color with
    | nil => simp
    | cons c l =>
      rw [List.foldl_cons, bestStep_none]
      constructor
      · intro h
        exact absurd h (foldl_bestStep_ne_none l c)
      · intro h
        simp at h
  · intro b hb
    refine ⟨best_move_mem board shape color b hb, ?_, ?_⟩
    · unfold best_move at hb
      cases hc : candidates board shape color with
      | nil => simp [hc] at hb
      | cons c l =>
        rw [hc, List.foldl_cons, bestStep_none] at hb
        obtain ⟨h1, h2⟩ := foldl_bestStep_le l c b hb
        intro d hd
        rcases List.mem_cons.mp hd with rfl | hd
        · exact h1
        · exact h2 d hd
    · unfold best_move at hb
      cases hc : candidates board shape color with
      | nil => simp [hc] at hb
      | cons c l =>
        rw [hc, List.foldl_cons, bestStep_none] at hb
        rcases foldl_bestStep_first l c b hb with ⟨rfl, hall⟩ | ⟨i, hi, hcb, hprev⟩
        · refine ⟨0, by simp, ?_⟩
          intro j d hj _
          omega
        · refine ⟨i + 1, by simpa using hi, ?_⟩
          intro j d hj hd
          match j with
          | 0 =>
            simp only [List.getElem?_cons_zero, Option.some.injEq] at hd
            subst hd
            exact hcb
          | j' + 1 =>
            exact hprev j' d (by omega) (by simpa using hd)

/-- A full board: every candidate spawn row fails the occupancy check for
the I-piece, exercising the `none` branch of C6. -/
def fullBoardW : Board := List.replicate ROWS (List.replicate COLS (some 0))

/-- Witness for C6: on a fully occupied board the search finds no
placement. -/
theorem best_move_spec_witness :
    best_move fullBoardW shapeI 0 = none :=
  (best_move_spec fullBoardW shapeI 0).1.mpr (by decide)

/-- C7: `evaluate_board` computes score
`1·lines − 0.35·aggregate − 0.7·holes − 0.18·bumpiness − 0.25·max_height`
over the post-placement metrics, plus display-only
`reward = lines·100` and
`penalty = aggregate + 5·holes + 2·bumpiness + 3·max_height`; the search
comparison (`bestStep`) reads only the `score` field, so reward and
penalty never enter it. -/
theorem evaluate_board_spec (board : Board) (lines_cleared : Nat) :
    ((evaluate_board board lines_cleared).score =
      1 * (lines_cleared : ℚ)
        - (35 / 100) * ((board_metrics board).1 : ℚ)
        - (7 / 10) * ((board_metrics board).2.1 : ℚ)
        - (18 / 100) * ((board_metrics board).2.2.1 : ℚ)
        - (25 / 100) * ((board_metrics board).2.2.2 : ℚ)) ∧
    ((evaluate_board board lines_cleared).reward = lines_cleared * 100) ∧
    ((evaluate_board board lines_cleared).penalty =
      (board_metrics board).1 + 5 * (board_metrics board).2.1 +
        2 * (board_metrics board).2.2.1 + 3 * (board_metrics board).2.2.2) ∧
    (∀ b c : Placement, bestStep (some b) c =
      if b.metrics.score < c.metrics.score then some c else some b) := by
  refine ⟨?_, rfl, ?_, fun b c => rfl⟩
  · show W_lines * (lines_cleared : ℚ) + W_aggregate_height * _ + W_holes * _ +
      W_bumpiness * _ + W_max_height * _ = _
    unfold W_lines W_aggregate_height W_holes W_bumpiness W_max_height
    ring
  · show (board_metrics board).1 + (board_metrics board).2.1 * 5 +
      (board_metrics board).2.2.1 * 2 + (board_metrics board).2.2.2 * 3 = _
    ring

lemma drop_y_fuel_ge (board : Board) (shape : Mask) (x : Int) (fuel : Nat) (y : Int) :
    y ≤ drop_y_fuel board shape x fuel y := by
  induction fuel generalizing y with
  | zero => exact le_refl y
  | succ fuel ih =>
    unfold drop_y_fuel
    split
    · exact le_trans (by omega) (ih (y + 1))
    · exact le_refl y

lemma drop_y_fuel_valid (board : Board) (shape : Mask) (x : Int) (fuel : Nat) (y : Int)
    (h : valid (shape_cells shape x y) board = true) :
    valid (shape_cells shape x (drop_y_fuel board shape x fuel y)) board = true := by
  induction fuel generalizing y with
  | zero => exact h
  | succ fuel ih =>
    unfold drop_y_fuel
    split
    · rename_i hnext
      exact ih (y + 1) hnext
    · exact h

lemma shape_cells_y_ge (shape : Mask) (x y : Int) (p : Int × Int)
    (hp : p ∈ shape_cells shape x y) : y ≤ p.2 := by
  unfold shape_cells at hp
  rw [List.mem_flatMap] at hp
  obtain ⟨r, hr, hp⟩ := hp
  rw [List.mem_flatMap] at hp
  obtain ⟨c, hc, hp⟩ := hp
  split at hp
  · rcases List.mem_singleton.mp hp with rfl
    show y ≤ y + (r : Int)
    omega
  · exact absurd hp (List.not_mem_nil p)

/-- C10: if `best_move` returns a placement, every cell of that
placement's cell set is inside the board (`0 ≤ x < COLS`, `0 ≤ y < ROWS`)
and empty on the pre-placement board: no resting cell lies above the
visible board, because the search drops from row 0 and `drop_y` only ever
increments the row while the moved cells stay valid. -/
theorem best_move_safe (board : Board) (shape : Mask) (color : Nat) (b : Placement)
    (hb : best_move board shape color = some b) :
    ∀ p ∈ b.cells, 0 ≤ p.1 ∧ p.1 < (COLS : Int) ∧ 0 ≤ p.2 ∧ p.2 < (ROWS : Int) ∧
      cellAt board p.1 p.2 = none := by
  have hmem := best_move_mem board shape color b hb
  unfold candidates at hmem
  rw [List.mem_flatMap] at hmem
  obtain ⟨ri, _, hmem2⟩ := hmem
  rw [List.mem_filterMap] at hmem2
  obtain ⟨i, _, hcand⟩ := hmem2
  by_cases h0 : valid (shape_cells ri.2 ((i : Int) - 2) 0) board = true
  · by_cases hv : valid
        (shape_cells ri.2 ((i : Int) - 2)
          (drop_y board ri.2 ((i : Int) - 2) 0)) board = true
    · simp only [candidate, h0, hv, if_true, Option.some.injEq] at hcand
      subst hcand
      intro p hp
      have hy0 : (0 : Int) ≤ drop_y board ri.2 ((i : Int) - 2) 0 :=
        drop_y_fuel_ge board ri.2 ((i : Int) - 2) (ROWS + 4) 0
      have hpy : drop_y board ri.2 ((i : Int) - 2) 0 ≤ p.2 :=
        shape_cells_y_ge ri.2 ((i : Int) - 2) _ p hp
      obtain ⟨h1, h2, h3, h4⟩ := (valid_true_iff board _).mp hv p hp
      refine ⟨h1, h2, by omega, h3, ?_⟩
      rcases h4 with h | h
      · omega
      · exact h
    · simp [candidate, h0, hv] at hcand
  · simp [candidate, h0] at hcand

/-- A placeholder placement, used only as the `getD` default below. -/
def junkPlacement : Placement :=
  { x := 0, y := 0, rotIndex := 0, shape := [], cells := [],
    metrics := { score := 0, reward := 0, penalty := 0, aggregate_height := 0,
                 holes := 0, bumpiness := 0, max_height := 0,
                 terms := { lines := 0, aggregate_height := 0, holes := 0,
                            bumpiness := 0, max_height := 0 } } }

/-- The placement the search returns for an I-piece on the empty board. -/
def bmIW : Placement := (best_move emptyBoard shapeI 0).getD junkPlacement

set_option maxRecDepth 4000 in
/-- Witness for C10: the I-piece placement on the empty board rests its
cell `(0, 19)` inside the board on an empty cell. -/
theorem best_move_safe_witness :
    0 ≤ ((0 : Int), (19 : Int)).1 ∧ ((0 : Int), (19 : Int)).1 < (COLS : Int) ∧
    0 ≤ ((0 : Int), (19 : Int)).2 ∧ ((0 : Int), (19 : Int)).2 < (ROWS : Int) ∧
    cellAt emptyBoard ((0 : Int), (19 : Int)).1 ((0 : Int), (19 : Int)).2 = none :=
  best_move_safe emptyBoard shapeI 0 bmIW (by with_unfolding_all decide)
    ((0 : Int), (19 : Int)) (by with_unfolding_all decide)

lemma move_left_frame (s : GameState) :
    (move_left s).board = s.board ∧ (move_left s).score = s.score ∧
    (move_left s).drop_interval = s.drop_interval ∧
    (move_left s).game_over = s.game_over ∧
    (move_left s).ai_enabled = s.ai_enabled := by
  unfold move_left
  split <;> exact ⟨rfl, rfl, rfl, rfl, rfl⟩

lemma move_right_frame (s : GameState) :
    (move_right s).board = s.board ∧ (move_right s).score = s.score ∧
    (move_right s).drop_interval = s.drop_interval ∧
    (move_right s).game_over = s.game_over ∧
    (move_right s).ai_enabled = s.ai_enabled := by
  unfold move_right
  split <;> exact ⟨rfl, rfl, rfl, rfl, rfl⟩

lemma move_down_frame (s : GameState) :
    (move_down s).1.board = s.board ∧ (move_down s).1.score = s.score ∧
    (move_down s).1.drop_interval = s.drop_interval ∧
    (move_down s).1.game_over = s.game_over ∧
    (move_down s).1.ai_enabled = s.ai_enabled := by
  unfold move_down
  split <;> exact ⟨rfl, rfl, rfl, rfl, rfl⟩

lemma rotate_piece_frame (s : GameState) :
    (rotate_piece s).board = s.board ∧ (rotate_piece s).score = s.score ∧
    (rotate_piece s).drop_interval = s.drop_interval ∧
    (rotate_piece s).game_over = s.game_over ∧
    (rotate_piece s).ai_enabled = s.ai_enabled := by
  simp only [rotate_piece]
  split <;> exact ⟨rfl, rfl, rfl, rfl, rfl⟩

lemma hard_drop_frame (s : GameState) :
    (hard_drop s).board = s.board ∧ (hard_drop s).score = s.score ∧
    (hard_drop s).drop_interval = s.drop_interval ∧
    (hard_drop s).game_over = s.game_over ∧
    (hard_drop s).ai_enabled = s.ai_enabled :=
  ⟨rfl, rfl, rfl, rfl, rfl⟩

lemma handleKey_game_over_frame (i : Intent) (s : GameState)
    (h : s.game_over = true) :
    (handleKey i s).board = s.board ∧ (handleKey i s).score = s.score ∧
    (handleKey i s).drop_interval = s.drop_interval ∧
    (handleKey i s).game_over = true ∧
    (handleKey i s).ai_enabled = s.ai_enabled := by
  cases i with
  | toggle => simp [handleKey, h]
  | left =>
    simp only [handleKey]
    split
    · obtain ⟨h1, h2, h3, h4, h5⟩ := move_left_frame s
      exact ⟨h1, h2, h3, by rw [h4, h], h5⟩
    · exact ⟨rfl, rfl, rfl, h, rfl⟩
  | right =>
    simp only [handleKey]
    split
    · obtain ⟨h1, h2, h3, h4, h5⟩ := move_right_frame s
      exact ⟨h1, h2, h3, by rw [h4, h], h5⟩
    · exact ⟨rfl, rfl, rfl, h, rfl⟩
  | down =>
    simp only [handleKey]
    split
    · obtain ⟨h1, h2, h3, h4, h5⟩ := move_down_frame s
      exact ⟨h1, h2, h3, by rw [h4, h], h5⟩
    · exact ⟨rfl, rfl, rfl, h, rfl⟩
  | up =>
    simp only [handleKey]
    split
    · obtain ⟨h1, h2, h3, h4, h5⟩ := rotate_piece_frame s
      exact ⟨h1, h2, h3, by rw [h4, h], h5⟩
    · exact ⟨rfl, rfl, rfl, h, rfl⟩
  | drop =>
    simp only [handleKey]
    split
    · exact ⟨rfl, rfl, rfl, h, rfl⟩
    · exact ⟨rfl, rfl, rfl, h, rfl⟩

/-- C8 witness state: game over, autoplay off, the stale I-piece at the
spawn anchor over an empty board. -/
def gameOverState : GameState :=
  { board := emptyBoard, shape := shapeI, x := 3, y := -2, color := 0,
    score := 0, drop_interval := 700, game_over := true, ai_enabled := false }

/-- C8 counterexample: the claim "from any GameOver state every movement
intent leaves the game state unchanged" is false — the key handler gates
movement only on `not ai_enabled`, so in a GameOver state with autoplay
off a `MoveLeft` intent still shifts the stale active piece. -/
theorem game_over_counterexample :
    gameOverState.game_over = true ∧
    handleKey Intent.left gameOverState ≠ gameOverState := by
  refine ⟨rfl, ?_⟩
  decide

/-- C8 amended: a failed spawn inside the lock step sets `game_over`; in a
GameOver state the fall tick, the autoplayer actions, and the autoplay
toggle are all ignored, and movement intents can never change the board,
score, drop interval, game-over flag, or autoplay flag — but they are
still forwarded to the (stale) active piece when autoplay is off, so the
full state need not be unchanged. -/
theorem game_over_spec :
    (∀ (s : GameState) (n : Nat),
      valid (shape_cells (SHAPES.getD n []) spawnX (-2))
          (clear_lines (place_on_board s.board s.shape s.x s.y s.color)).1 = false →
        (lockStep n s).game_over = true) ∧
    (∀ (s : GameState) (n : Nat), s.game_over = true → tickStep n s = s) ∧
    (∀ (s : GameState) (a : AIAction), s.game_over = true → aiStep a s = s) ∧
    (∀ s : GameState, s.game_over = true → handleKey Intent.toggle s = s) ∧
    (∀ (s : GameState) (i : Intent), s.game_over = true →
      (handleKey i s).board = s.board ∧ (handleKey i s).score = s.score ∧
      (handleKey i s).drop_interval = s.drop_interval ∧
      (handleKey i s).game_over = true ∧
      (handleKey i s).ai_enabled = s.ai_enabled) := by
  refine ⟨?_, ?_, ?_, ?_, ?_⟩
  · intro s n h
    have h' := h
    simp only [List.getD_eq_getElem?_getD] at h'
    simp [lockStep, spawn, apply_ite, h, h']
  · intro s n h
    simp [tickStep, h]
  · intro s a h
    simp [aiStep, h]
  · intro s h
    simp [handleKey, h]
  · intro s i h
    exact handleKey_game_over_frame i s h

/-- Witness for C8's amended theorem: in the concrete GameOver state the
fall tick is a no-op. -/
theorem game_over_spec_witness :
    tickStep 0 gameOverState = gameOverState :=
  game_over_spec.2.1 gameOverState 0 rfl

lemma lockStep_score (n : Nat) (s : GameState) :
    (lockStep n s).score =
      if lockCleared s ≠ 0 then s.score + (lockCleared s * lockCleared s) * 100
      else s.score := by
  by_cases hk : (clear_lines (place_on_board s.board s.shape s.x s.y s.color)).2 = 0
  · simp [lockStep, spawn, lockCleared, apply_ite, hk]
  · simp [lockStep, spawn, lockCleared, apply_ite, hk]

lemma lockStep_di (n : Nat) (s : GameState) :
    (lockStep n s).drop_interval =
      if lockCleared s ≠ 0 then max 120 (s.drop_interval - lockCleared s * 20)
      else s.drop_interval := by
  by_cases hk : (clear_lines (place_on_board s.board s.shape s.x s.y s.color)).2 = 0
  · simp [lockStep, spawn, lockCleared, apply_ite, hk]
  · simp [lockStep, spawn, lockCleared, apply_ite, hk]

lemma aiStep_di (a : AIAction) (s : GameState) :
    (aiStep a s).drop_interval = s.drop_interval := by
  unfold aiStep
  split
  · cases a with
    | left => exact (move_left_frame s).2.2.1
    | right => exact (move_right_frame s).2.2.1
    | rot => exact (rotate_piece_frame s).2.2.1
    | drop => rfl
  · rfl

lemma handleKey_di (i : Intent) (s : GameState) :
    (handleKey i s).drop_interval = s.drop_interval := by
  cases i with
  | toggle =>
    simp only [handleKey]
    split <;> rfl
  | left =>
    simp only [handleKey]
    split
    · exact (move_left_frame s).2.2.1
    · rfl
  | right =>
    simp only [handleKey]
    split
    · exact (move_right_frame s).2.2.1
    · rfl
  | down =>
    simp only [handleKey]
    split
    · exact (move_down_frame s).2.2.1
    · rfl
  | up =>
    simp only [handleKey]
    split
    · exact (rotate_piece_frame s).2.2.1
    · rfl
  | drop =>
    simp only [handleKey]
    split <;> rfl

lemma step_di_bounds (s s' : GameState) (h : Step s s')
    (hs : 120 ≤ s.drop_interval ∧ s.drop_interval ≤ 700) :
    120 ≤ s'.drop_interval ∧ s'.drop_interval ≤ 700 := by
  cases h with
  | key i s => rw [handleKey_di]; exact hs
  | ai a s => rw [aiStep_di]; exact hs
  | enforce s =>
    unfold enforceGameOver
    split
    · exact hs
    · exact hs
  | tick n s hn =>
    unfold tickStep
    split
    · exact hs
    · by_cases hmd : (move_down s).2 = true
      · simp only [hmd, if_true]
        rw [(move_down_frame s).2.2.1]
        exact hs
      · simp only [Bool.not_eq_true] at hmd
        simp only [hmd, Bool.false_eq_true, if_false]
        rw [lockStep_di]
        split
        · refine ⟨le_max_left 120 _, max_le (by omega) (by omega)⟩
        · exact hs

/-- C9: `drop_interval` starts at 700; a lock clearing `k > 0` lines adds
exactly `k²·100` to the score and sets
`drop_interval := max 120 (drop_interval − 20·k)`; a lock clearing zero
lines changes neither; consequently `120 ≤ drop_interval ≤ 700` holds in
every reachable state. -/
theorem drop_interval_spec :
    (∀ idx : Nat, (initState idx).drop_interval = 700) ∧
    (∀ (s : GameState) (n : Nat), 0 < lockCleared s →
      (lockStep n s).score =
        s.score + (lockCleared s * lockCleared s) * 100 ∧
      (lockStep n s).drop_interval =
        max 120 (s.drop_interval - 20 * lockCleared s)) ∧
    (∀ (s : GameState) (n : Nat), lockCleared s = 0 →
      (lockStep n s).score = s.score ∧
      (lockStep n s).drop_interval = s.drop_interval) ∧
    (∀ s : GameState, Reachable s →
      120 ≤ s.drop_interval ∧ s.drop_interval ≤ 700) := by
  refine ⟨fun idx => rfl, ?_, ?_, ?_⟩
  · intro s n hk
    have h1 := lockStep_score n s
    have h2 := lockStep_di n s
    rw [if_pos (by omega)] at h1
    rw [if_pos (by omega)] at h2
    refine ⟨h1, ?_⟩
    rw [h2, Nat.mul_comm]
  · intro s n hk
    have h1 := lockStep_score n s
    have h2 := lockStep_di n s
    rw [if_neg (by omega)] at h1
    rw [if_neg (by omega)] at h2
    exact ⟨h1, h2⟩
  · intro s hs
    obtain ⟨idx, hidx, hr⟩ := hs
    have hinit : 120 ≤ (initState idx).drop_interval ∧
        (initState idx).drop_interval ≤ 700 := by
      have h700 : (initState idx).drop_interval = 700 := rfl
      rw [h700]
      omega
    induction hr with
    | refl => exact hinit
    | tail hpre hstep ih => exact step_di_bounds _ _ hstep ih

/-- C9 witness state: bottom row filled in 6 of 10 columns, with the
I-piece resting so that its four cells complete that row. -/
def lockWitnessState : GameState :=
  { board := List.replicate 19 emptyRow ++
      [List.replicate 4 none ++ List.replicate 6 (some 1)],
    shape := shapeI, x := 0, y := 18, color := 0, score := 0,
    drop_interval := 700, game_over := false, ai_enabled := true }

/-- Witness for C9: the initial state is reachable and within the bounds,
and a concrete lock that completes the bottom row adds 100 to the score
and shrinks the interval from 700 to 680. -/
theorem drop_interval_spec_witness :
    (120 ≤ (initState 0).drop_interval ∧ (initState 0).drop_interval ≤ 700) ∧
    ((lockStep 0 lockWitnessState).score =
        lockWitnessState.score +
          (lockCleared lockWitnessState * lockCleared lockWitnessState) * 100 ∧
      (lockStep 0 lockWitnessState).drop_interval =
        max 120 (lockWitnessState.drop_interval -
          20 * lockCleared lockWitnessState)) :=
  ⟨drop_interval_spec.2.2.2 (initState 0)
      ⟨0, by decide, Relation.ReflTransGen.refl⟩,
    drop_interval_spec.2.1 lockWitnessState 0 (by decide)⟩

end Tetris
